import Mathlib

/-!
Shallow embedding of the state-synchronization core of the `yazi` file
manager (`src/core/manager/manager.rs` and
`yazi-core/src/manager/commands/link.rs`), together with proofs about the
claims of the specification.

Paths are modelled as strings with decidable equality; the hash maps of the
source (`history`, `mimetype`, the yank set) are modelled as association
lists / plain lists, which preserves lookup/insert/extend semantics.
Fire-and-forget bus signals (`emit!`) and spawned background tasks are
modelled as explicit return values where a claim depends on them.
-/

namespace Yazi

abbrev Path := String

/-- A directory entry.  The source `File` carries a path plus metadata; the
only metadata field the manager core inspects is the is-directory flag, so
the embedding flattens `meta.is_dir()` into a boolean field.  Identity is
the path. -/
structure File where
  path : Path
  is_dir : Bool
deriving DecidableEq

instance : Inhabited File := ⟨⟨"", false⟩⟩

/-- A directory-listing result delivered by the watcher/reader.  The manager
only uses `op.path()` and hands the op to `Folder::update`, which replaces
the listing wholesale (§3: "mutated by listing updates (full replace)"), so
the embedding keeps the target path and the new listing. -/
structure FilesOp where
  path : Path
  files : List File
deriving DecidableEq

/-- `FilesOp::read_empty(&path)`: an op carrying an empty listing. -/
def FilesOp.read_empty (p : Path) : FilesOp := ⟨p, []⟩

/-- A single directory's materialized listing (§3): `cwd`, the ordered
listing, the optional hovered entry, the set of selected paths, and the
`in_search` flag marking a synthetic search-result listing. -/
structure Folder where
  cwd : Path
  files : List File
  hovered : Option File
  selected : List Path
  in_search : Bool
deriving DecidableEq

instance : Inhabited Folder := ⟨⟨"", [], none, [], false⟩⟩

/-- Modelled from the spec (Folder construction is not under `src/`):
a Folder is "created empty when a tab navigates to a new directory or when
history must materialize a not-yet-visited ancestor". -/
def Folder.new (p : Path) : Folder := ⟨p, [], none, [], false⟩

/-- Modelled from the spec: a fresh synthetic search Folder for a path —
empty listing, `in_search` set. -/
def Folder.new_search (p : Path) : Folder := ⟨p, [], none, [], true⟩

/-- Cursor re-validation of §4.3, the core algorithm invoked after every
listing mutation: if the previously-hovered path is still present in the
new listing, keep it hovered (identity by path); if absent, fall back to
the entry at the same index (the hovered entry's index in the old listing)
if one exists, else the last entry, else none.  When nothing was hovered
the spec gives no rule; the embedding keeps the hover empty. -/
def revalidate (old : List File) (hov : Option File) (next : List File) :
    Option File :=
  match hov with
  | none => none
  | some h =>
    match next.find? (fun x => x.path == h.path) with
    | some x => some x
    | none =>
      match next.get? (old.findIdx (fun x => x.path == h.path)) with
      | some x => some x
      | none => next.getLast?

/-- Modelled from the spec (`Folder::update` is not under `src/`): a listing
update replaces the listing wholesale (§3) and re-validates the cursor per
§4.3.  The returned flag is the re-render boolean of §4.1, true when the
update changed observable Folder state. -/
def Folder.update (f : Folder) (op : FilesOp) : Folder × Bool :=
  let f' : Folder :=
    { f with files := op.files, hovered := revalidate f.files f.hovered op.files }
  (f', decide (f' ≠ f))

/-- Modelled from the spec (`Folder::hover` is not under `src/`):
re-validates the cursor against a given path — hovers the listing entry
with that path when present, otherwise leaves the Folder unchanged; returns
whether the hovered entry changed. -/
def Folder.hover (f : Folder) (p : Path) : Folder × Bool :=
  match f.files.find? (fun x => x.path == p) with
  | some x => ({ f with hovered := some x }, decide (f.hovered ≠ some x))
  | none => (f, false)

/-- `Folder::selected()` as used by `Manager::selected`: the selected set if
non-empty, else nothing. -/
def Folder.selected_set (f : Folder) : Option (List Path) :=
  if f.selected.isEmpty then none else some f.selected

/-- `Folder::has_selected()`. -/
def Folder.has_selected (f : Folder) : Bool := !f.selected.isEmpty

/-- Preview artifact variants (`PreviewData`): the manager core only ever
names `PreviewData::Folder`; concrete rendered content is abstracted as a
string blob. -/
inductive PreviewData where
  | empty : PreviewData
  | folder : PreviewData
  | content : String → PreviewData
deriving DecidableEq

instance : Inhabited PreviewData := ⟨PreviewData.empty⟩

/-- The preview slot of a tab (§3): the path the artifact was generated
for, the artifact, and the mime it was rendered with. -/
structure PreviewSlot where
  path : Path
  data : PreviewData
  mime : String
deriving DecidableEq

instance : Inhabited PreviewSlot := ⟨⟨"", PreviewData.empty, ""⟩⟩

/-- Modelled from the spec (`Preview::reset` is not under `src/`): resets
the slot's artifact; the returned re-render flag is true when there was an
artifact to discard. -/
def PreviewSlot.reset (s : PreviewSlot) : PreviewSlot × Bool :=
  ({ s with data := PreviewData.empty }, decide (s.data ≠ PreviewData.empty))

/-- Modelled from the spec (`Preview::go` is not under `src/`):
"transitions the preview to that mimetype's renderer" — records the target
path and mime; the rendered artifact arrives later through
`update_preview`. -/
def PreviewSlot.go (s : PreviewSlot) (p : Path) (m : String) : PreviewSlot :=
  { s with path := p, mime := m }

/-- Association-list lookup (first match), modelling map `get`. -/
def alist_get {α : Type} (l : List (Path × α)) (p : Path) : Option α :=
  (l.find? (fun e => e.1 == p)).map (fun e => e.2)

/-- Association-list insert, modelling map `insert`: replaces the value
under an existing key in place, else appends a new entry. -/
def alist_insert {α : Type} (l : List (Path × α)) (p : Path) (v : α) :
    List (Path × α) :=
  if (l.find? (fun e => e.1 == p)).isSome then
    l.map (fun e => if e.1 == p then (p, v) else e)
  else l ++ [(p, v)]

/-- Association-list bulk insert, modelling map `extend`. -/
def alist_extend {α : Type} (l xs : List (Path × α)) : List (Path × α) :=
  xs.foldl (fun acc e => alist_insert acc e.1 e.2) l

/-- One navigation context (§3): current Folder, optional parent Folder,
history archive of previously-visited Folders keyed by path, preview
slot. -/
structure Tab where
  current : Folder
  parent : Option Folder
  history : List (Path × Folder)
  preview : PreviewSlot
deriving DecidableEq

instance : Inhabited Tab := ⟨⟨default, none, [], default⟩⟩

/-- `Tab::history(path)`. -/
def Tab.history_at (t : Tab) (p : Path) : Option Folder := alist_get t.history p

/-- Whether an optional Folder exists and has the given cwd, the condition
`matches!(self.parent(), Some(p) if p.cwd == path)`. -/
def folder_matches (p? : Option Folder) (path : Path) : Bool :=
  match p? with
  | some p => p.cwd == path
  | none => false

/-- Modelled from the spec (`Tab::leave` is not under `src/`): "leave"
semantics of §4.3 — move the tab's logical location up to the parent
directory, discarding the stale current Folder, but only if the parent is
itself known; the grandparent is not derivable in this embedding, so the
new parent is left unknown. -/
def Tab.leave (t : Tab) : Tab :=
  match t.parent with
  | some p => { t with current := p, parent := none }
  | none => t

/-!
The `update_*` entry points of `Manager` read and write state exclusively
through the active tab (`self.current()`, `self.hovered()`, `self.parent()`
and `self.active_mut()` all resolve to `self.tabs.active()`), so each is
embedded as a transformation of one `Tab`, lifted to `Manager` by replacing
the active tab.
-/

/-- The dispatch phase of `Manager::update_read` (manager.rs lines
186-199): apply the op to the current Folder (when the path matches and it
is not a search listing), else to the parent Folder (when the path
matches), else to the history Folder for that path, created on demand (in
which case the re-render flag is whether the hovered entry's path is the
op's path; the history update leaves `current` untouched, so the hover
read after the update equals the one before it). -/
def Tab.read_dispatch (t : Tab) (op : FilesOp) : Tab × Bool :=
  if t.current.cwd = op.path ∧ t.current.in_search = false then
    ({ t with current := (t.current.update op).1 }, (t.current.update op).2)
  else if folder_matches t.parent op.path then
    ({ t with parent := some ((t.parent.getD default).update op).1 },
      ((t.parent.getD default).update op).2)
  else
    ({ t with history := alist_insert t.history op.path (((alist_get t.history op.path).getD (Folder.new op.path)).update op).1 },
      decide (t.current.hovered.map File.path = some op.path))

/-- The first fixup of `Manager::update_read` (manager.rs line 201):
`b |= parent.hover(&cwd)`, re-validating the parent Folder's cursor
against the current directory's path. -/
def Tab.read_hover_parent (s : Tab × Bool) (cwd : Path) : Tab × Bool :=
  match s.1.parent with
  | some p => ({ s.1 with parent := some ((p.hover cwd).1) }, s.2 || (p.hover cwd).2)
  | none => s

/-- The second fixup of `Manager::update_read` (manager.rs line 202):
`b |= current.hover(&h)`, re-validating the current Folder's cursor
against the previously-hovered path. -/
def Tab.read_hover_current (s : Tab × Bool) (hov : Option Path) : Tab × Bool :=
  match hov with
  | some h => ({ s.1 with current := ((s.1.current.hover h).1) },
      s.2 || (s.1.current.hover h).2)
  | none => s

/-- `Manager::update_read` (manager.rs lines 181-208) as a transformation
of the active tab: the dispatch phase followed by the two cursor fixups,
where `cwd` and the previously-hovered path are read before the dispatch.
The final `emit!(Hover)` is a fire-and-forget render-bus signal and
carries no manager state. -/
def Tab.update_read (t : Tab) (op : FilesOp) : Tab × Bool :=
  Tab.read_hover_current
    (Tab.read_hover_parent (t.read_dispatch op) t.current.cwd)
    (t.current.hovered.map File.path)

/-- `Manager::update_ioerr` (manager.rs lines 210-224) as a transformation
of the active tab: apply an empty listing to the current or parent Folder
when the path matches, then back the tab out via `leave`; otherwise report
no change. -/
def Tab.update_ioerr (t : Tab) (op : FilesOp) : Tab × Bool :=
  if t.current.cwd = op.path then
    (Tab.leave { t with current := (t.current.update (FilesOp.read_empty op.path)).1 }, true)
  else if folder_matches t.parent op.path then
    (Tab.leave { t with
      parent := some ((t.parent.getD default).update (FilesOp.read_empty op.path)).1 }, true)
  else
    (t, false)

/-- `Manager::update_search` (manager.rs lines 226-238) as a transformation
of the active tab: merge in place when the current Folder is already the
search listing for that path; else replace it with a fresh search Folder,
archiving the replaced Folder into history only if it was not itself a
search listing. -/
def Tab.update_search (t : Tab) (op : FilesOp) : Tab × Bool :=
  if t.current.in_search = true ∧ t.current.cwd = op.path then
    let (f, b) := t.current.update op
    ({ t with current := f }, b)
  else
    let t2 :=
      if t.current.in_search then { t with current := Folder.new_search op.path }
      else { t with current := Folder.new_search op.path,
                    history := alist_insert t.history op.path t.current }
    ({ t2 with current := (t2.current.update op).1 }, true)

/-- `Manager::update_preview` (manager.rs lines 254-269) as a
transformation of the active tab: with nothing hovered, reset the slot;
with a hovered entry whose path differs from the artifact's, discard
silently; else store the artifact. -/
def Tab.update_preview (t : Tab) (path : Path) (data : PreviewData) :
    Tab × Bool :=
  match t.current.hovered with
  | none =>
    let (s, b) := t.preview.reset
    ({ t with preview := s }, b)
  | some h =>
    if h.path = path then
      ({ t with preview := { t.preview with path := path, data := data } }, true)
    else
      (t, false)

/-- Ordered sequence of tabs plus the active index (§3 TabCollection). -/
structure Tabs where
  items : List Tab
  idx : Nat
deriving DecidableEq

/-- `Tabs::active()`. -/
def Tabs.active (t : Tabs) : Tab := t.items.getD t.idx default

/-- Mutation through `Tabs::active_mut()`: replace the active tab. -/
def Tabs.modify_active (t : Tabs) (f : Tab → Tab) : Tabs :=
  { t with items := t.items.set t.idx (f t.active) }

/-- The root orchestrator (manager.rs lines 8-14): tab collection, yank
state `(cut, set of paths)`, and the mimetype cache.  The watcher handle is
an external collaborator and carries no state a claim depends on. -/
structure Manager where
  tabs : Tabs
  yanked : Bool × List Path
  mimetype : List (Path × String)
deriving DecidableEq

namespace Manager

/-- `Manager::active()`. -/
def active (m : Manager) : Tab := m.tabs.active

/-- `Manager::current()`. -/
def current (m : Manager) : Folder := m.tabs.active.current

/-- `Manager::parent()`. -/
def parent (m : Manager) : Option Folder := m.tabs.active.parent

/-- `Manager::hovered()`. -/
def hovered (m : Manager) : Option File := m.tabs.active.current.hovered

/-- `Manager::cwd()` (yazi-core accessor used by `link`): the active tab's
current working directory. -/
def cwd (m : Manager) : Path := m.current.cwd

/-- Mutation through `Manager::active_mut()`. -/
def modify_active (m : Manager) (f : Tab → Tab) : Manager :=
  { m with tabs := m.tabs.modify_active f }

/-- Writing through `Manager::current_mut()`. -/
def set_current (m : Manager) (f : Folder) : Manager :=
  m.modify_active (fun t => { t with current := f })

/-- Writing through `self.active_mut().parent.as_mut().unwrap()`. -/
def set_parent_some (m : Manager) (f : Folder) : Manager :=
  m.modify_active (fun t => { t with parent := some f })

/-- Writing the active tab's preview slot. -/
def set_preview (m : Manager) (s : PreviewSlot) : Manager :=
  m.modify_active (fun t => { t with preview := s })

/-- `Manager::selected` (manager.rs lines 166-168): the current Folder's
selected set if non-empty, else the singleton of the hovered entry's path,
else empty. -/
def selected (m : Manager) : List Path :=
  match m.current.selected_set with
  | some s => s
  | none =>
    match m.hovered with
    | some h => [h.path]
    | none => []

/-- `Manager::selected` takes `&self`; as a state transition it returns its
value alongside the untouched manager. -/
def run_selected (m : Manager) : List Path × Manager := (m.selected, m)

/-- `Manager::yank` (manager.rs lines 73-78): overwrite the clipboard with
the cut flag and a snapshot of `selected()`; never warrants a re-render by
itself. -/
def yank (m : Manager) (cut : Bool) : Manager × Bool :=
  ({ m with yanked := (cut, m.selected) }, false)

/-- The synchronous outcome of `Manager::quit`: either the `Quit` signal is
emitted at once, or a confirmation prompt with the given title is
spawned. -/
inductive QuitEffect where
  | quit : QuitEffect
  | prompt : String → QuitEffect
deriving DecidableEq

/-- The prompt title built at manager.rs line 92. -/
def quit_title (n : Nat) : String :=
  "There are " ++ toString n ++ " tasks running, sure to quit? (y/N)"

/-- `Manager::quit` (manager.rs lines 83-105), synchronous portion: with no
running tasks, emit `Quit` immediately; otherwise spawn a confirmation
prompt.  Both paths return `false` (no re-render). -/
def quit (tasks_len : Nat) : QuitEffect × Bool :=
  if tasks_len = 0 then (QuitEffect.quit, false)
  else (QuitEffect.prompt (quit_title tasks_len), false)

/-- Rust's `str::to_lowercase`, character-wise lowercasing of the answer
string (ASCII suffices for the "y"/"Y" comparison). -/
def to_lowercase (s : String) : String := ⟨s.data.map Char.toLower⟩

/-- The body of the task spawned by `Manager::quit` (manager.rs lines
98-102): once the prompt resolves, `Quit` is emitted exactly when the
answer arrived (not cancelled) and lowercases to "y".  Returns whether
`Quit` is emitted. -/
def quit_confirm (result : Except Unit String) : Bool :=
  match result with
  | Except.ok choice => to_lowercase choice == "y"
  | Except.error _ => false

/-- `Manager::preview` (manager.rs lines 49-71), synchronous portion.  The
`emit!` signals and the spawned mimetype probe are fire-and-forget; only
the preview-slot mutation is state. -/
def preview (m : Manager) : Manager × Bool :=
  match m.hovered with
  | none =>
    let (s, b) := m.active.preview.reset
    (m.set_preview s, b)
  | some h =>
    if h.is_dir then
      (m.set_preview (m.active.preview.go h.path "inode/directory"), false)
    else
      match alist_get m.mimetype h.path with
      | some mime => (m.set_preview (m.active.preview.go h.path mime), false)
      | none => (m, false)

/-- `Manager::update_read`, lifted from `Tab.update_read` by replacing the
active tab. -/
def update_read (m : Manager) (op : FilesOp) : Manager × Bool :=
  (m.modify_active (fun t => (t.update_read op).1), (m.active.update_read op).2)

/-- `Manager::update_ioerr`, lifted from `Tab.update_ioerr` by replacing
the active tab. -/
def update_ioerr (m : Manager) (op : FilesOp) : Manager × Bool :=
  (m.modify_active (fun t => (t.update_ioerr op).1), (m.active.update_ioerr op).2)

/-- `Manager::update_search`, lifted from `Tab.update_search` by replacing
the active tab. -/
def update_search (m : Manager) (op : FilesOp) : Manager × Bool :=
  (m.modify_active (fun t => (t.update_search op).1), (m.active.update_search op).2)

/-- `Manager::update_mimetype` (manager.rs lines 240-252): drop entries
already cached with the same value; if nothing is left, report no change;
otherwise hand the surviving entries to the job queue as image/video
pre-cache hints, merge them into the cache and re-run `preview`.  The
third component is the hint map passed to `tasks.precache_image` /
`tasks.precache_video` (`none` when no hint is issued). -/
def update_mimetype (m : Manager) (mimes : List (Path × String)) :
    Manager × Bool × Option (List (Path × String)) :=
  let mimes' := mimes.filter (fun e => decide (alist_get m.mimetype e.1 ≠ some e.2))
  if mimes'.isEmpty then (m, false, none)
  else
    let m1 := { m with mimetype := alist_extend m.mimetype mimes' }
    ((m1.preview).1, true, some mimes')

/-- `Manager::update_preview`, lifted from `Tab.update_preview` by
replacing the active tab. -/
def update_preview (m : Manager) (path : Path) (data : PreviewData) :
    Manager × Bool :=
  (m.modify_active (fun t => (t.update_preview path data).1),
    (m.active.update_preview path data).2)

end Manager

/-- Arguments of the `link` command (`Opt` in link.rs). -/
structure LinkOpt where
  relative : Bool
  force : Bool
deriving DecidableEq

/-- `Manager::link` (link.rs lines 17-21): `!cut && tasks.file_link(src,
self.cwd(), opt.relative, opt.force)`.  The `&&` short-circuits, so with a
cut clipboard `file_link` is never invoked.  `file_link_ret` is the job
queue's reply; the second component is the request issued to the job queue
(`none` when `file_link` is not invoked). -/
def Manager.link (m : Manager) (opt : LinkOpt) (file_link_ret : Bool) :
    Bool × Option (List Path × Path × Bool × Bool) :=
  let cut := m.yanked.1
  let src := m.yanked.2
  if cut then (false, none)
  else (file_link_ret, some (src, m.cwd, opt.relative, opt.force))

/-! Sample states used by concrete witnesses and counterexamples. -/

def fileX : File := ⟨"x", false⟩

def fileY : File := ⟨"y", false⟩

def fileZ : File := ⟨"z", false⟩

def folderA : Folder :=
  { cwd := "a", files := [fileX, fileY, fileZ], hovered := some fileX,
    selected := [], in_search := false }

def tabA : Tab := { current := folderA, parent := none, history := [], preview := default }

def mgrA : Manager :=
  { tabs := { items := [tabA], idx := 0 }, yanked := (false, []), mimetype := [] }

def mgrCut : Manager := { mgrA with yanked := (true, ["x"]) }

def mgrMime : Manager := { mgrA with mimetype := [("x", "text/plain")] }

/-- The history-key invariant: every archived Folder is stored under its
own cwd. -/
def tab_hist_wf (t : Tab) : Prop := ∀ e ∈ t.history, (e.2).cwd = e.1

instance (t : Tab) : Decidable (tab_hist_wf t) :=
  decidable_of_iff (∀ e ∈ t.history, (e.2).cwd = e.1) Iff.rfl

/-- One step of the pure §4.3 hover rule: the state is the Folder's
listing together with its hovered entry, and a new listing re-validates
the cursor. -/
def hover_sim (st : List File × Option File) (fs : List File) :
    List File × Option File :=
  (fs, revalidate st.1 st.2 fs)

/-- A listing for `"a"` that drops the hovered entry `fileX`. -/
def opDropX : FilesOp := ⟨"a", [fileY, fileZ]⟩

/-- A listing for `"a"` that restores the full listing, `fileX`
included. -/
def opRestore : FilesOp := ⟨"a", [fileX, fileY, fileZ]⟩

/-! Basic facts about the embedding's containers. -/

theorem getD_set_self {α : Type} (l : List α) (i : Nat) (a d : α)
    (h : i < l.length) : (l.set i a).getD i d = a := by
  induction l generalizing i with
  | nil => simp at h
  | cons x xs ih =>
    cases i with
    | zero => rfl
    | succ j =>
      simpa [List.set, List.getD] using ih j (by simpa using h)

/-- Well-formedness of a manager state: the active index is in range. -/
def Manager.WF (m : Manager) : Prop := m.tabs.idx < m.tabs.items.length

theorem Manager.active_modify (m : Manager) (f : Tab → Tab) (h : m.WF) :
    (m.modify_active f).active = f m.active := by
  unfold Manager.modify_active Manager.active Tabs.modify_active Tabs.active
  exact getD_set_self _ _ _ _ h

theorem Manager.modify_idx (m : Manager) (f : Tab → Tab) :
    (m.modify_active f).tabs.idx = m.tabs.idx := rfl

theorem Manager.modify_len (m : Manager) (f : Tab → Tab) :
    (m.modify_active f).tabs.items.length = m.tabs.items.length := by
  simp [Manager.modify_active, Tabs.modify_active]

theorem Manager.modify_WF (m : Manager) (f : Tab → Tab) (h : m.WF) :
    (m.modify_active f).WF := by
  simpa [Manager.WF, Manager.modify_len, Manager.modify_idx] using h

theorem Manager.modify_yanked (m : Manager) (f : Tab → Tab) :
    (m.modify_active f).yanked = m.yanked := rfl

theorem Manager.modify_mimetype (m : Manager) (f : Tab → Tab) :
    (m.modify_active f).mimetype = m.mimetype := rfl

theorem set_getD_self {α : Type} (l : List α) (i : Nat) (d : α) :
    l.set i (l.getD i d) = l := by
  induction l generalizing i with
  | nil => rfl
  | cons x xs ih =>
    cases i with
    | zero => rfl
    | succ j => simp only [List.set, List.getD_cons_succ, ih j]

theorem Manager.modify_congr (m : Manager) (f g : Tab → Tab)
    (h : f m.active = g m.active) : m.modify_active f = m.modify_active g := by
  simp only [Manager.active] at h
  unfold Manager.modify_active Tabs.modify_active
  rw [h]

theorem Manager.modify_id (m : Manager) : m.modify_active (fun t => t) = m := by
  unfold Manager.modify_active Tabs.modify_active Tabs.active
  rw [set_getD_self]

/-! Facts about Folder updates, hovering and tab surgery. -/

theorem revalidate_nil (old : List File) (hov : Option File) :
    revalidate old hov [] = none := by
  cases hov <;> rfl

theorem Folder.update_fst (f : Folder) (op : FilesOp) :
    (f.update op).1 =
      { f with files := op.files,
               hovered := revalidate f.files f.hovered op.files } := rfl

theorem Folder.update_empty (f : Folder) (p : Path) :
    (f.update (FilesOp.read_empty p)).1 = { f with files := [], hovered := none } := by
  rw [Folder.update_fst]
  simp [FilesOp.read_empty, revalidate_nil]

theorem Folder.hover_files (f : Folder) (p : Path) :
    ((f.hover p).1).files = f.files := by
  rcases hf : f.files.find? (fun x => x.path == p) with _ | x <;>
    simp [Folder.hover, hf]

theorem Folder.hover_cwd (f : Folder) (p : Path) :
    ((f.hover p).1).cwd = f.cwd := by
  rcases hf : f.files.find? (fun x => x.path == p) with _ | x <;>
    simp [Folder.hover, hf]

theorem Folder.hover_in_search (f : Folder) (p : Path) :
    ((f.hover p).1).in_search = f.in_search := by
  rcases hf : f.files.find? (fun x => x.path == p) with _ | x <;>
    simp [Folder.hover, hf]

theorem Tab.leave_history (t : Tab) : (Tab.leave t).history = t.history := by
  rcases hp : t.parent with _ | p <;> simp [Tab.leave, hp]

theorem folder_matches_iff (o : Option Folder) (path : Path) :
    folder_matches o path = true ↔ ∃ p, o = some p ∧ p.cwd = path := by
  cases o <;> simp [folder_matches]

/-! Branch characterizations of the tab-level update operations. -/

theorem Tab.update_ioerr_miss (t : Tab) (op : FilesOp)
    (h1 : t.current.cwd ≠ op.path)
    (h2 : folder_matches t.parent op.path = false) :
    t.update_ioerr op = (t, false) := by
  unfold Tab.update_ioerr
  rw [if_neg h1, if_neg (by simp [h2])]

theorem Tab.update_ioerr_current (t : Tab) (op : FilesOp)
    (h : t.current.cwd = op.path) :
    t.update_ioerr op =
      (Tab.leave { t with current := { t.current with files := [], hovered := none } },
        true) := by
  unfold Tab.update_ioerr
  rw [if_pos h, Folder.update_empty]

theorem Tab.update_ioerr_parent (t : Tab) (op : FilesOp) (p : Folder)
    (hne : t.current.cwd ≠ op.path) (hp : t.parent = some p)
    (hc : p.cwd = op.path) :
    t.update_ioerr op =
      (Tab.leave { t with parent := some { p with files := [], hovered := none } },
        true) := by
  unfold Tab.update_ioerr
  rw [if_neg hne, if_pos (by simp [folder_matches, hp, hc])]
  rw [hp]
  simp only [Option.getD_some, Folder.update_empty]

theorem Tab.read_dispatch_current (t : Tab) (op : FilesOp)
    (h1 : t.current.cwd = op.path) (h2 : t.current.in_search = false) :
    t.read_dispatch op =
      ({ t with current := (t.current.update op).1 }, (t.current.update op).2) := by
  unfold Tab.read_dispatch
  rw [if_pos ⟨h1, h2⟩]

theorem Tab.read_dispatch_parent (t : Tab) (op : FilesOp) (p : Folder)
    (hnc : ¬(t.current.cwd = op.path ∧ t.current.in_search = false))
    (hp : t.parent = some p) (hc : p.cwd = op.path) :
    t.read_dispatch op =
      ({ t with parent := some ((p.update op).1) }, (p.update op).2) := by
  unfold Tab.read_dispatch
  rw [if_neg hnc, if_pos (by simp [folder_matches, hp, hc]), hp]
  rfl

theorem Tab.read_dispatch_history (t : Tab) (op : FilesOp)
    (hnc : ¬(t.current.cwd = op.path ∧ t.current.in_search = false))
    (hfm : folder_matches t.parent op.path = false) :
    t.read_dispatch op =
      ({ t with history := alist_insert t.history op.path (((alist_get t.history op.path).getD (Folder.new op.path)).update op).1 },
        decide (t.current.hovered.map File.path = some op.path)) := by
  unfold Tab.read_dispatch
  rw [if_neg hnc, if_neg (by simp [hfm])]

theorem read_fixups_char (s : Tab × Bool) (cwd : Path) (hov : Option Path) :
    (Tab.read_hover_current (Tab.read_hover_parent s cwd) hov).1 =
      { s.1 with
        current :=
          match hov with
          | some h => ((s.1.current.hover h).1)
          | none => s.1.current,
        parent := s.1.parent.map (fun p => (p.hover cwd).1) } := by
  rcases s with ⟨t, b⟩
  rcases hp : t.parent with _ | p <;> rcases hov with _ | h
  · simp only [Tab.read_hover_parent, Tab.read_hover_current, hp, Option.map_none']
    rw [← hp]
  · simp [Tab.read_hover_parent, Tab.read_hover_current, hp]
  · simp [Tab.read_hover_parent, Tab.read_hover_current, hp]
  · simp [Tab.read_hover_parent, Tab.read_hover_current, hp]

theorem Tab.update_read_fst (t : Tab) (op : FilesOp) :
    (t.update_read op).1 =
      { (t.read_dispatch op).1 with
        current :=
          match t.current.hovered.map File.path with
          | some h => (((t.read_dispatch op).1.current.hover h).1)
          | none => (t.read_dispatch op).1.current,
        parent := (t.read_dispatch op).1.parent.map (fun p => (p.hover t.current.cwd).1) } :=
  read_fixups_char (t.read_dispatch op) t.current.cwd (t.current.hovered.map File.path)

theorem Folder.update_files (f : Folder) (op : FilesOp) :
    ((f.update op).1).files = op.files := rfl

theorem Folder.update_cwd (f : Folder) (op : FilesOp) :
    ((f.update op).1).cwd = f.cwd := rfl

theorem Folder.update_in_search (f : Folder) (op : FilesOp) :
    ((f.update op).1).in_search = f.in_search := rfl

theorem Manager.update_read_active (m : Manager) (op : FilesOp) (h : m.WF) :
    (m.update_read op).1.active = (m.active.update_read op).1 :=
  Manager.active_modify _ _ h

theorem Tab.update_search_replace (t : Tab) (op : FilesOp)
    (hne : ¬(t.current.in_search = true ∧ t.current.cwd = op.path)) :
    t.update_search op =
      ({ t with
          current := ((Folder.new_search op.path).update op).1,
          history :=
            if t.current.in_search then t.history
            else alist_insert t.history op.path t.current }, true) := by
  unfold Tab.update_search
  rw [if_neg hne]
  cases hs : t.current.in_search with
  | true => simp [hs]
  | false => simp [hs]

theorem getD_mem {α : Type} (l : List α) (i : Nat) (d : α)
    (h : i < l.length) : l.getD i d ∈ l := by
  induction l generalizing i with
  | nil => simp at h
  | cons x xs ih =>
    cases i with
    | zero => exact List.mem_cons_self x xs
    | succ j =>
      simp only [List.getD_cons_succ]
      exact List.mem_cons_of_mem x (ih j (by simpa using h))

theorem Manager.active_mem (m : Manager) (h : m.WF) :
    m.active ∈ m.tabs.items :=
  getD_mem _ _ _ h

theorem Manager.mem_modify {m : Manager} {f : Tab → Tab} {t : Tab}
    (ht : t ∈ (m.modify_active f).tabs.items) :
    t ∈ m.tabs.items ∨ t = f m.active :=
  List.mem_or_eq_of_mem_set ht

theorem alist_insert_hist_wf (l : List (Path × Folder)) (p : Path) (v : Folder)
    (hl : ∀ e ∈ l, (e.2).cwd = e.1) (hv : v.cwd = p) :
    ∀ e ∈ alist_insert l p v, (e.2).cwd = e.1 := by
  intro e he
  unfold alist_insert at he
  by_cases hf : (l.find? (fun e => e.1 == p)).isSome
  · rw [if_pos hf] at he
    obtain ⟨a, ha, hae⟩ := List.mem_map.mp he
    by_cases hap : (a.1 == p) = true
    · rw [if_pos hap] at hae
      rw [← hae]
      exact hv
    · rw [if_neg hap] at hae
      rw [← hae]
      exact hl a ha
  · rw [if_neg hf] at he
    rcases List.mem_append.mp he with h | h
    · exact hl e h
    · have : e = (p, v) := by simpa using h
      rw [this]
      exact hv

theorem hist_get_cwd (l : List (Path × Folder)) (p : Path)
    (hl : ∀ e ∈ l, (e.2).cwd = e.1) :
    ((alist_get l p).getD (Folder.new p)).cwd = p := by
  unfold alist_get
  rcases hf : l.find? (fun e => e.1 == p) with _ | e
  · rw [hf]
    rfl
  · have h1 := List.find?_some hf
    simp only [beq_iff_eq] at h1
    have h2 : e ∈ l := List.mem_of_find?_eq_some hf
    have h3 := hl e h2
    rw [hf]
    simp only [Option.map_some', Option.getD_some]
    rw [h3, h1]

theorem Tab.update_search_merge (t : Tab) (op : FilesOp)
    (h : t.current.in_search = true ∧ t.current.cwd = op.path) :
    t.update_search op =
      ({ t with current := (t.current.update op).1 }, (t.current.update op).2) := by
  unfold Tab.update_search
  rw [if_pos h]

theorem Manager.update_search_active (m : Manager) (op : FilesOp) (h : m.WF) :
    (m.update_search op).1.active = (m.active.update_search op).1 :=
  Manager.active_modify _ _ h

theorem Manager.update_read_WF (m : Manager) (op : FilesOp) (h : m.WF) :
    (m.update_read op).1.WF :=
  m.modify_WF _ h

/-- Re-hovering the previously-hovered path right after a listing update is
absorbed by the update's own re-validation: when the path survived, the
update already hovers the entry `hover` finds; when it did not, `hover` is
a no-op. -/
theorem update_then_hover (f : Folder) (op : FilesOp) (h : File)
    (hf : f.hovered = some h) :
    (((f.update op).1).hover h.path).1 =
      { f with files := op.files,
               hovered := revalidate f.files (some h) op.files } := by
  rw [Folder.update_fst, hf]
  unfold Folder.hover
  rcases hfind : op.files.find? (fun x => x.path == h.path) with _ | x
  · simp only [hfind]
  · simp only [hfind]
    simp [revalidate, hfind]

/-- The current Folder after an `update_read` dispatched to it: the listing
is replaced and the hover follows the §4.3 rule applied to the pre-update
listing and hover. -/
theorem Tab.update_read_current_step (t : Tab) (op : FilesOp)
    (h1 : t.current.cwd = op.path) (h2 : t.current.in_search = false) :
    (t.update_read op).1.current =
      { t.current with
          files := op.files,
          hovered := revalidate t.current.files t.current.hovered op.files } := by
  rw [Tab.update_read_fst, Tab.read_dispatch_current t op h1 h2]
  rcases hh : t.current.hovered with _ | h
  · simp only [hh, Option.map_none']
    rw [Folder.update_fst, hh]
  · simp only [hh, Option.map_some']
    exact update_then_hover t.current op h hh

theorem Manager.read_current_step (m : Manager) (op : FilesOp)
    (hwf : m.WF) (h1 : m.current.cwd = op.path)
    (h2 : m.current.in_search = false) :
    (m.update_read op).1.current =
      { m.current with
          files := op.files,
          hovered := revalidate m.current.files m.current.hovered op.files } := by
  show ((m.update_read op).1.active).current = _
  rw [Manager.update_read_active _ _ hwf, Tab.update_read_current_step m.active op h1 h2]
  rfl

/-- Folding `update_read` over a sequence of listing ops for the current
directory is simulated, on the current Folder's listing and hover, by
iterating the pure §4.3 rule. -/
theorem update_read_fold_sim (ops : List FilesOp) (m : Manager) (hwf : m.WF)
    (hsearch : m.current.in_search = false)
    (hpaths : ∀ op ∈ ops, op.path = m.current.cwd) :
    ((ops.foldl (fun s op => (s.update_read op).1) m).current.files,
      (ops.foldl (fun s op => (s.update_read op).1) m).current.hovered) =
      ops.foldl (fun st op => hover_sim st op.files)
        (m.current.files, m.current.hovered) := by
  induction ops generalizing m with
  | nil => rfl
  | cons op rest ih =>
    simp only [List.foldl_cons]
    have hpa : op.path = m.current.cwd := hpaths op (List.mem_cons_self _ _)
    have hstep := Manager.read_current_step m op hwf hpa.symm hsearch
    have hwf' : (m.update_read op).1.WF := Manager.update_read_WF m op hwf
    have hsearch' : (m.update_read op).1.current.in_search = false := by
      rw [hstep]
      exact hsearch
    have hpaths' : ∀ o ∈ rest, o.path = (m.update_read op).1.current.cwd := by
      intro o ho
      rw [hstep]
      exact hpaths o (List.mem_cons_of_mem _ ho)
    have hrec := ih (m.update_read op).1 hwf' hsearch' hpaths'
    rw [hrec, hstep]
    rfl

theorem revalidate_present (old : List File) (h : File) (next : List File)
    (y : File) (hy : next.find? (fun x => x.path == h.path) = some y) :
    revalidate old (some h) next = some y := by
  simp only [revalidate]
  rw [hy]

/-- Iterating the pure §4.3 rule keeps the hovered path whenever every
listing in the sequence contains an entry with that path. -/
theorem hover_sim_survives (fss : List (List File))
    (st : List File × Option File) (h : File) (hst : st.2 = some h)
    (hall : ∀ fs ∈ fss, ∃ x ∈ fs, x.path = h.path) :
    ((fss.foldl hover_sim st).2).map File.path = some h.path := by
  induction fss generalizing st h with
  | nil => simp [hst]
  | cons fs rest ih =>
    simp only [List.foldl_cons]
    have hsome : (fs.find? (fun x => x.path == h.path)).isSome := by
      rw [List.find?_isSome]
      obtain ⟨x, hx, hpx⟩ := hall fs (List.mem_cons_self _ _)
      exact ⟨x, hx, by simp [hpx]⟩
    obtain ⟨y, hy⟩ := Option.isSome_iff_exists.mp hsome
    have hpy : y.path = h.path := by
      have := List.find?_some hy
      simpa using this
    have hrev : revalidate st.1 st.2 fs = some y := by
      rw [hst]
      exact revalidate_present st.1 h fs y hy
    have hall' : ∀ fs' ∈ rest, ∃ x ∈ fs', x.path = y.path := by
      intro fs' hf'
      rw [hpy]
      exact hall fs' (List.mem_cons_of_mem _ hf')
    have hnext : (hover_sim st fs).2 = some y := by
      simp [hover_sim, hrev]
    have := ih (hover_sim st fs) y hnext hall'
    rw [this, hpy]

/-! Claim theorems. -/

theorem mgrA_WF : mgrA.WF := by
  unfold Manager.WF
  decide


/-- C2: whenever a preview artifact arrives for a path that differs from
the path of the currently hovered entry, `update_preview` returns false
and leaves the entire manager state unchanged. -/
theorem update_preview_stale_noop (m : Manager) (path : Path)
    (data : PreviewData) (h : File) (hh : m.current.hovered = some h)
    (hne : h.path ≠ path) :
    m.update_preview path data = (m, false) := by
  have ht : m.active.update_preview path data = (m.active, false) := by
    have hh' : m.active.current.hovered = some h := hh
    simp only [Tab.update_preview, hh']
    simp [hne]
  unfold Manager.update_preview
  rw [ht]
  have hm : m.modify_active (fun t => (t.update_preview path data).1) = m := by
    rw [Manager.modify_congr m _ (fun t => t) (by rw [ht])]
    exact m.modify_id
  rw [hm]

theorem update_preview_stale_noop_w :
    (mgrA.update_preview "q" PreviewData.empty = (mgrA, false)) ∧
      mgrA.current.hovered = some fileX ∧ fileX.path ≠ "q" :=
  ⟨update_preview_stale_noop mgrA "q" PreviewData.empty fileX rfl (by decide),
    rfl, by decide⟩

/-- C3: `quit` with zero running tasks synchronously emits `Quit` with no
prompt; with a positive task count its synchronous portion spawns a prompt
instead of emitting `Quit`, and the spawned confirmation emits `Quit`
exactly when the prompt resolves to an answer whose lowercase form is
"y" — never on other input, never on cancellation. -/
theorem quit_spec (n : Nat) :
    (n = 0 → Manager.quit n = (Manager.QuitEffect.quit, false)) ∧
    (0 < n →
      Manager.quit n = (Manager.QuitEffect.prompt (Manager.quit_title n), false) ∧
      ∀ r : Except Unit String,
        Manager.quit_confirm r = true ↔
          ∃ s, r = Except.ok s ∧ Manager.to_lowercase s = "y") := by
  constructor
  · intro h
    simp [Manager.quit, h]
  · intro hpos
    refine ⟨by simp [Manager.quit, Nat.pos_iff_ne_zero.mp hpos], ?_⟩
    intro r
    cases r with
    | ok s => simp [Manager.quit_confirm]
    | error e => simp [Manager.quit_confirm]

theorem quit_spec_w :
    Manager.quit 0 = (Manager.QuitEffect.quit, false) ∧
      Manager.quit 2 = (Manager.QuitEffect.prompt (Manager.quit_title 2), false) ∧
      Manager.quit_confirm (Except.ok "Y") = true ∧
      Manager.quit_confirm (Except.ok "n") = false ∧
      Manager.quit_confirm (Except.error ()) = false :=
  ⟨(quit_spec 0).1 rfl, ((quit_spec 2).2 (by decide)).1,
    (((quit_spec 2).2 (by decide)).2 (Except.ok "Y")).mpr ⟨"Y", rfl, by decide⟩,
    by decide, by decide⟩

/-- C6: after `yank cut` the clipboard equals `(cut, S)` where `S` is the
current Folder's selected set if non-empty, else the singleton of the
hovered entry's path, else empty; and any number of subsequent `selected`
calls leaves the clipboard unchanged. -/
theorem yank_snapshot (m : Manager) (cut : Bool) (n : Nat) :
    ((m.yank cut).1).yanked =
      (cut,
        if m.current.selected ≠ [] then m.current.selected
        else
          match m.hovered with
          | some h => [h.path]
          | none => []) ∧
    (Nat.iterate (fun s => (Manager.run_selected s).2) n ((m.yank cut).1)).yanked =
      ((m.yank cut).1).yanked := by
  constructor
  · simp only [Manager.yank, Manager.selected, Folder.selected_set]
    cases hs : m.current.selected with
    | nil => simp
    | cons a l => simp
  · induction n with
    | zero => rfl
    | succ k ih =>
      rw [Function.iterate_succ_apply]
      exact ih

/-- C7: when every entry of the incoming mimetype mapping equals the value
already cached for its path, `update_mimetype` returns false, leaves the
cache unchanged, and issues no pre-cache hints. -/
theorem update_mimetype_noop (m : Manager) (mimes : List (Path × String))
    (h : ∀ e ∈ mimes, alist_get m.mimetype e.1 = some e.2) :
    m.update_mimetype mimes = (m, false, none) := by
  have hf : mimes.filter (fun e => decide (alist_get m.mimetype e.1 ≠ some e.2)) = [] := by
    rw [List.filter_eq_nil_iff]
    intro e he
    simpa using h e he
  simp only [Manager.update_mimetype]
  rw [hf]
  rfl

theorem update_mimetype_noop_w :
    (mgrMime.update_mimetype [("x", "text/plain")] = (mgrMime, false, none)) ∧
      alist_get mgrMime.mimetype "x" = some "text/plain" :=
  ⟨update_mimetype_noop mgrMime [("x", "text/plain")] (by decide), by decide⟩

/-- C10: with a cut-mode clipboard, `link` returns false and never invokes
the job queue's `file_link`; a link request is issued only when the
clipboard was produced in copy mode. -/
theorem link_requires_copy (m : Manager) (opt : LinkOpt) (ret : Bool) :
    (m.yanked.1 = true → m.link opt ret = (false, none)) ∧
    ∀ req, (m.link opt ret).2 = some req → m.yanked.1 = false := by
  unfold Manager.link
  constructor
  · intro h
    simp [h]
  · intro req
    cases hc : m.yanked.1 with
    | true => simp
    | false => simp

theorem link_requires_copy_w :
    (mgrCut.link ⟨false, false⟩ true = (false, none)) ∧ mgrCut.yanked.1 = true :=
  ⟨(link_requires_copy mgrCut ⟨false, false⟩ true).1 rfl, rfl⟩

/-- C4: `update_read` applies a listing op to exactly one Folder — the
active tab's current Folder when the op's path equals its cwd and it is
not a search listing; else the active tab's parent Folder when the op's
path equals its cwd; else the active tab's history Folder keyed by the
op's path, created empty on demand.  The other Folders' listings and the
history map are untouched (only cursors may be re-validated). -/
theorem update_read_dispatch_rule (m : Manager) (op : FilesOp) (hwf : m.WF) :
    ((op.path = m.current.cwd ∧ m.current.in_search = false) →
      (m.update_read op).1.current.files = op.files ∧
      (m.update_read op).1.current.cwd = m.current.cwd ∧
      (m.update_read op).1.parent.map Folder.files = m.parent.map Folder.files ∧
      (m.update_read op).1.active.history = m.active.history) ∧
    (∀ p, ¬(op.path = m.current.cwd ∧ m.current.in_search = false) →
      m.parent = some p → p.cwd = op.path →
      (m.update_read op).1.parent.map Folder.files = some op.files ∧
      (m.update_read op).1.current.files = m.current.files ∧
      (m.update_read op).1.active.history = m.active.history) ∧
    (¬(op.path = m.current.cwd ∧ m.current.in_search = false) →
      folder_matches m.parent op.path = false →
      (m.update_read op).1.current.files = m.current.files ∧
      (m.update_read op).1.parent.map Folder.files = m.parent.map Folder.files ∧
      (m.update_read op).1.active.history =
        alist_insert m.active.history op.path (((alist_get m.active.history op.path).getD (Folder.new op.path)).update op).1) := by
  have ha := Manager.update_read_active m op hwf
  have e := Tab.update_read_fst m.active op
  refine ⟨?_, ?_, ?_⟩
  · rintro ⟨h1, h2⟩
    have ed := Tab.read_dispatch_current m.active op h1.symm h2
    rw [ed] at e
    refine ⟨?_, ?_, ?_, ?_⟩
    · show ((m.update_read op).1.active).current.files = op.files
      rw [ha, e]
      rcases hh : m.active.current.hovered.map File.path with _ | q <;>
        simp [hh, Folder.hover_files, Folder.update_files]
    · show ((m.update_read op).1.active).current.cwd = m.active.current.cwd
      rw [ha, e]
      rcases hh : m.active.current.hovered.map File.path with _ | q <;>
        simp [hh, Folder.hover_cwd, Folder.update_cwd]
    · show ((m.update_read op).1.active).parent.map Folder.files =
        m.active.parent.map Folder.files
      rw [ha, e]
      rcases hp : m.active.parent with _ | p <;> simp [hp, Folder.hover_files]
    · rw [ha, e]
  · rintro p hnc hp hc
    have ed := Tab.read_dispatch_parent m.active op p
      (fun hand => hnc ⟨hand.1.symm, hand.2⟩) hp hc
    rw [ed] at e
    refine ⟨?_, ?_, ?_⟩
    · show ((m.update_read op).1.active).parent.map Folder.files = some op.files
      rw [ha, e]
      simp [Folder.hover_files, Folder.update_files]
    · show ((m.update_read op).1.active).current.files = m.active.current.files
      rw [ha, e]
      rcases hh : m.active.current.hovered.map File.path with _ | q <;>
        simp [hh, Folder.hover_files]
    · rw [ha, e]
  · rintro hnc hfm
    have ed := Tab.read_dispatch_history m.active op
      (fun hand => hnc ⟨hand.1.symm, hand.2⟩) hfm
    rw [ed] at e
    refine ⟨?_, ?_, ?_⟩
    · show ((m.update_read op).1.active).current.files = m.active.current.files
      rw [ha, e]
      rcases hh : m.active.current.hovered.map File.path with _ | q <;>
        simp [hh, Folder.hover_files]
    · show ((m.update_read op).1.active).parent.map Folder.files =
        m.active.parent.map Folder.files
      rw [ha, e]
      rcases hp : m.active.parent with _ | p <;> simp [hp, Folder.hover_files]
    · rw [ha, e]

theorem update_read_dispatch_rule_w :
    (mgrA.update_read ⟨"a", [fileY]⟩).1.current.files = [fileY] ∧
      (mgrA.update_read ⟨"a", [fileY]⟩).1.current.cwd = mgrA.current.cwd ∧
      (mgrA.update_read ⟨"a", [fileY]⟩).1.parent.map Folder.files =
        mgrA.parent.map Folder.files ∧
      (mgrA.update_read ⟨"a", [fileY]⟩).1.active.history = mgrA.active.history :=
  (update_read_dispatch_rule mgrA ⟨"a", [fileY]⟩ mgrA_WF).1 ⟨rfl, rfl⟩

/-- C5: for a search-result op whose path or search-status does not match
the current Folder, `update_search` replaces the active tab's current
Folder by a fresh synthetic search Folder for the op's path (with the
listing applied), and the replaced previous current Folder is archived
into the tab's history exactly when it was a non-search listing. -/
theorem update_search_replaces (m : Manager) (op : FilesOp) (hwf : m.WF)
    (hne : ¬(m.current.in_search = true ∧ m.current.cwd = op.path)) :
    (m.update_search op).1.active =
      { m.active with
          current := ((Folder.new_search op.path).update op).1,
          history :=
            if m.current.in_search then m.active.history
            else alist_insert m.active.history op.path m.current } ∧
    (m.update_search op).2 = true := by
  have ht := Tab.update_search_replace m.active op hne
  constructor
  · unfold Manager.update_search
    rw [Manager.active_modify _ _ hwf, ht]
    rfl
  · unfold Manager.update_search
    rw [ht]

theorem update_search_replaces_w :
    ((mgrA.update_search ⟨"s", [fileX]⟩).1.active =
      { mgrA.active with
          current := ((Folder.new_search "s").update ⟨"s", [fileX]⟩).1,
          history :=
            if mgrA.current.in_search then mgrA.active.history
            else alist_insert mgrA.active.history "s" mgrA.current } ∧
      (mgrA.update_search ⟨"s", [fileX]⟩).2 = true) ∧
      ¬(mgrA.current.in_search = true ∧ mgrA.current.cwd = "s") :=
  ⟨update_search_replaces mgrA ⟨"s", [fileX]⟩ mgrA_WF (by decide), by decide⟩

/-- C8: an I/O-error op whose path matches neither the current nor the
parent Folder's cwd is a no-op returning false; an op matching one of them
replaces that Folder's listing with an empty one, triggers the tab's
leave-to-parent recovery and returns true; history Folders are never
modified. -/
theorem update_ioerr_spec (m : Manager) (op : FilesOp) (hwf : m.WF) :
    (op.path ≠ m.current.cwd → folder_matches m.parent op.path = false →
      m.update_ioerr op = (m, false)) ∧
    (op.path = m.current.cwd →
      (m.update_ioerr op).1.active =
        Tab.leave { m.active with
          current := { m.current with files := [], hovered := none } } ∧
      (m.update_ioerr op).2 = true) ∧
    (∀ p, op.path ≠ m.current.cwd → m.parent = some p → p.cwd = op.path →
      (m.update_ioerr op).1.active =
        Tab.leave { m.active with
          parent := some { p with files := [], hovered := none } } ∧
      (m.update_ioerr op).2 = true) ∧
    (m.update_ioerr op).1.active.history = m.active.history := by
  refine ⟨?_, ?_, ?_, ?_⟩
  · intro h1 h2
    have ht := Tab.update_ioerr_miss m.active op (fun hc => h1 hc.symm) h2
    unfold Manager.update_ioerr
    rw [ht]
    have hm : m.modify_active (fun t => (t.update_ioerr op).1) = m := by
      rw [Manager.modify_congr m _ (fun t => t) (by rw [ht])]
      exact m.modify_id
    rw [hm]
  · intro h1
    have ht := Tab.update_ioerr_current m.active op h1.symm
    constructor
    · unfold Manager.update_ioerr
      rw [Manager.active_modify _ _ hwf, ht]
      rfl
    · unfold Manager.update_ioerr
      rw [ht]
  · intro p h1 hp hc
    have ht := Tab.update_ioerr_parent m.active op p (fun hc' => h1 hc'.symm) hp hc
    constructor
    · unfold Manager.update_ioerr
      rw [Manager.active_modify _ _ hwf, ht]
    · unfold Manager.update_ioerr
      rw [ht]
  · by_cases h1 : m.active.current.cwd = op.path
    · have ht := Tab.update_ioerr_current m.active op h1
      unfold Manager.update_ioerr
      rw [Manager.active_modify _ _ hwf, ht, Tab.leave_history]
    · by_cases h2 : folder_matches m.active.parent op.path = true
      · obtain ⟨p, hp, hc⟩ := (folder_matches_iff _ _).mp h2
        have ht := Tab.update_ioerr_parent m.active op p h1 hp hc
        unfold Manager.update_ioerr
        rw [Manager.active_modify _ _ hwf, ht, Tab.leave_history]
      · have ht := Tab.update_ioerr_miss m.active op h1 (by simpa using h2)
        unfold Manager.update_ioerr
        rw [Manager.active_modify _ _ hwf, ht]

/-- C1 counterexample: the final hover is not independent of the
intermediate listings.  Hover starts on `"x"` (index 0); an intermediate
listing for the same path drops `"x"` (the hover falls back to `"y"`, the
entry at index 0); the final listing contains `"x"` again — yet the hover
stays on `"y"`, not on the previously-hovered `"x"` even though that path
is present in the final listing. -/
theorem update_read_sequence_cex :
    mgrA.current.hovered.map File.path = some "x" ∧
      opDropX.path = mgrA.current.cwd ∧ opRestore.path = mgrA.current.cwd ∧
      "x" ∈ opRestore.files.map File.path ∧
      (((mgrA.update_read opDropX).1.update_read opRestore).1).current.hovered.map
          File.path = some "y" := by decide

/-- C1 (amended): the §4.3 hover rule is applied per update, not once over
the whole sequence: folding `update_read` over listing ops for the current
directory is simulated, on the current Folder's (listing, hover) pair, by
iterating the single-update rule (keep the pre-update hovered path when it
survives that op's listing, else same index, else last entry, else none);
consequently the previously-hovered path is guaranteed to stay hovered
only when it is present in every listing of the sequence, and the final
hover does depend on intermediate listings. -/
theorem update_read_hover_rule (m : Manager) (ops : List FilesOp) (hwf : m.WF)
    (hsearch : m.current.in_search = false)
    (hpaths : ∀ op ∈ ops, op.path = m.current.cwd) :
    (((ops.foldl (fun s op => (s.update_read op).1) m).current.files,
        (ops.foldl (fun s op => (s.update_read op).1) m).current.hovered) =
      ops.foldl (fun st op => hover_sim st op.files)
        (m.current.files, m.current.hovered)) ∧
    (∀ h : File, m.current.hovered = some h →
      (∀ op ∈ ops, ∃ x ∈ op.files, x.path = h.path) →
      ((ops.foldl (fun s op => (s.update_read op).1) m).current.hovered).map
          File.path = some h.path) := by
  have hfold := update_read_fold_sim ops m hwf hsearch hpaths
  refine ⟨hfold, ?_⟩
  intro h hh hall
  have h2 : (ops.foldl (fun s op => (s.update_read op).1) m).current.hovered =
      (ops.foldl (fun st op => hover_sim st op.files)
        (m.current.files, m.current.hovered)).2 :=
    congrArg Prod.snd hfold
  rw [h2, show ops.foldl (fun st op => hover_sim st op.files)
        (m.current.files, m.current.hovered) =
      (ops.map FilesOp.files).foldl hover_sim
        (m.current.files, m.current.hovered) from (List.foldl_map _ _ _ _).symm]
  refine hover_sim_survives (ops.map FilesOp.files) _ h hh ?_
  intro fs hfs
  obtain ⟨op, hop, rfl⟩ := List.mem_map.mp hfs
  exact hall op hop

theorem update_read_hover_rule_w :
    (([opDropX, opRestore].foldl (fun s op => (s.update_read op).1)
        mgrA).current.files,
      ([opDropX, opRestore].foldl (fun s op => (s.update_read op).1)
        mgrA).current.hovered) =
      [opDropX, opRestore].foldl (fun st op => hover_sim st op.files)
        (mgrA.current.files, mgrA.current.hovered) :=
  (update_read_hover_rule mgrA [opDropX, opRestore] mgrA_WF rfl (by decide)).1

/-- C9 counterexample: the claim fails on `update_search`.  Starting from
a state whose history satisfies the key-equals-cwd invariant, a search op
for a path other than the current cwd archives the replaced current
Folder (cwd `"a"`) under the op's path (`"b"`), breaking the
invariant. -/
theorem update_search_history_key_cex :
    tab_hist_wf mgrA.active ∧
      mgrA.current.in_search = false ∧ mgrA.current.cwd = "a" ∧
      ¬ tab_hist_wf ((mgrA.update_search ⟨"b", []⟩).1).active := by decide

/-- C9 (amended): every `update_read` preserves the invariant that each
history entry's key equals the stored Folder's cwd (its on-demand
insertion keys a Folder created for, or already stored under, that path);
`update_search` preserves it when the op targets the current Folder's cwd
or merges into an existing search listing — archiving keys the replaced
Folder under the op's path, which equals that Folder's cwd only in those
cases. -/
theorem history_keyed_by_cwd (m : Manager) (op : FilesOp) (hwf : m.WF)
    (hm : ∀ t ∈ m.tabs.items, tab_hist_wf t) :
    (∀ t ∈ (m.update_read op).1.tabs.items, tab_hist_wf t) ∧
    ((m.current.in_search = true ∨ op.path = m.current.cwd) →
      ∀ t ∈ (m.update_search op).1.tabs.items, tab_hist_wf t) := by
  have hac := Manager.active_mem m hwf
  have hwa : tab_hist_wf m.active := hm _ hac
  constructor
  · intro t' ht'
    rcases Manager.mem_modify ht' with h | h
    · exact hm t' h
    · rw [h, Tab.update_read_fst]
      intro e he
      by_cases hc : m.active.current.cwd = op.path ∧ m.active.current.in_search = false
      · rw [Tab.read_dispatch_current _ _ hc.1 hc.2] at he
        exact hwa e he
      · by_cases hfm : folder_matches m.active.parent op.path = true
        · obtain ⟨p, hp, hcw⟩ := (folder_matches_iff _ _).mp hfm
          rw [Tab.read_dispatch_parent _ _ p hc hp hcw] at he
          exact hwa e he
        · rw [Tab.read_dispatch_history _ _ hc (by simpa using hfm)] at he
          exact alist_insert_hist_wf _ _ _ hwa
            (by rw [Folder.update_cwd]; exact hist_get_cwd _ _ hwa) e he
  · intro hcond t' ht'
    rcases Manager.mem_modify ht' with h | h
    · exact hm t' h
    · rw [h]
      by_cases hmg : m.active.current.in_search = true ∧ m.active.current.cwd = op.path
      · rw [Tab.update_search_merge _ _ hmg]
        intro e he
        exact hwa e he
      · rw [Tab.update_search_replace _ _ hmg]
        intro e he
        cases hs : m.active.current.in_search with
        | true =>
          simp only [hs, if_true] at he
          exact hwa e he
        | false =>
          simp only [hs, Bool.false_eq_true, if_false] at he
          have hpa : op.path = m.active.current.cwd := by
            rcases hcond with hcond | hcond
            · exact absurd hcond (by simp [show m.current.in_search = false from hs])
            · exact hcond
          exact alist_insert_hist_wf _ _ _ hwa hpa.symm e he

theorem history_keyed_by_cwd_w :
    (∀ t ∈ (mgrA.update_read ⟨"a", []⟩).1.tabs.items, tab_hist_wf t) ∧
      (∀ t ∈ (mgrA.update_search ⟨"a", []⟩).1.tabs.items, tab_hist_wf t) :=
  ⟨(history_keyed_by_cwd mgrA ⟨"a", []⟩ mgrA_WF (by decide)).1,
    (history_keyed_by_cwd mgrA ⟨"a", []⟩ mgrA_WF (by decide)).2 (Or.inr rfl)⟩

theorem update_ioerr_spec_w :
    (mgrA.update_ioerr ⟨"q", []⟩ = (mgrA, false)) ∧
      ((mgrA.update_ioerr ⟨"a", []⟩).1.active =
        Tab.leave { mgrA.active with
          current := { mgrA.current with files := [], hovered := none } } ∧
        (mgrA.update_ioerr ⟨"a", []⟩).2 = true) :=
  ⟨(update_ioerr_spec mgrA ⟨"q", []⟩ mgrA_WF).1 (by decide) (by decide),
    (update_ioerr_spec mgrA ⟨"a", []⟩ mgrA_WF).2.1 rfl⟩

end Yazi
